import Mathlib

/-!
Verification of the matrix-factorization collaborative-filtering kernel
(`gradient_descent` and `cost` from `14-recommender-systems.ipynb`).

The notebook works on dense numpy float arrays in which a missing rating is
the not-a-number sentinel.  We embed the kernel twice:

* a rational-valued model (`Mat` for the factor matrices `theta`, `x`;
  `FMat` with `Option ℚ` entries for the rating matrix `y`, `none` being the
  missing sentinel).  Since finite rational arithmetic never produces the
  sentinel, `theta @ x.T - y` is missing exactly where `y` is, and the
  notebook's mask `tmp[np.isnan(tmp)] = 0` becomes the `match` in
  `maskedResid`;
* a sentinel-propagating model (`FMat` everywhere, `fadd`/`fmul`/`fsub`
  propagating `none` the way IEEE arithmetic propagates NaN) that keeps the
  notebook's mask literally as "zero the entries whose computed value is the
  sentinel" (`fmask`).  Bridge lemmas (`ftmp_toF`, `fgd_toF`, `fcost_toF`)
  show the two models agree on sentinel-free factor matrices.
-/

namespace RecSys

/-- A dense rational matrix; entries outside `rows × cols` are irrelevant
padding carried by the total function `entr`. -/
@[ext]
structure Mat where
  rows : ℕ
  cols : ℕ
  entr : ℕ → ℕ → ℚ

/-- A dense matrix whose entries may be the not-a-number sentinel (`none`).
The rating matrix `y` of the notebook has this type: `none` is `np.nan`,
i.e. a missing rating. -/
@[ext]
structure FMat where
  rows : ℕ
  cols : ℕ
  entr : ℕ → ℕ → Option ℚ

/-- Matrix product `a @ b` (numpy `@`). -/
def matmul (a b : Mat) : Mat :=
  { rows := a.rows, cols := b.cols,
    entr := fun i j => ∑ l ∈ Finset.range a.cols, a.entr i l * b.entr l j }

/-- Transpose `a.T`. -/
def transpose (a : Mat) : Mat :=
  { rows := a.cols, cols := a.rows, entr := fun i j => a.entr j i }

/-- Scalar times matrix `c * a`, elementwise. -/
def smul (c : ℚ) (a : Mat) : Mat :=
  { rows := a.rows, cols := a.cols, entr := fun i j => c * a.entr i j }

/-- Elementwise sum `a + b` (shapes agree in every use, dimensions taken
from the left operand). -/
def madd (a b : Mat) : Mat :=
  { rows := a.rows, cols := a.cols, entr := fun i j => a.entr i j + b.entr i j }

/-- Elementwise difference `a - b` (dimensions taken from the left
operand). -/
def msub (a b : Mat) : Mat :=
  { rows := a.rows, cols := a.cols, entr := fun i j => a.entr i j - b.entr i j }

/-- The notebook's `tmp = theta @ x.T - y; tmp[np.isnan(tmp)] = 0` in the
rational model: with finite `theta` and `x` the subtraction is the sentinel
exactly at the missing entries of `y`, so the mask zeroes exactly those
(this is proved against the sentinel-propagating model in `ftmp_toF`). -/
def maskedResid (theta x : Mat) (y : FMat) : Mat :=
  { rows := theta.rows, cols := x.rows,
    entr := fun i j =>
      match y.entr i j with
      | none => 0
      | some v => (matmul theta (transpose x)).entr i j - v }

/-- One iteration of the loop body of `gradient_descent`, statement by
statement in the notebook's order: `tmp` (masked residual), `dx`, `dtheta`
(both from the still-unmodified `theta`, `x`), then `x -= alpha * dx`,
then `theta -= alpha * dtheta`. -/
def step (theta x : Mat) (y : FMat) (alpha beta : ℚ) : Mat × Mat :=
  let tmp := maskedResid theta x y
  let dx := madd (matmul (transpose tmp) theta) (smul beta x)
  let dtheta := madd (matmul tmp x) (smul beta theta)
  let x1 := msub x (smul alpha dx)
  let theta1 := msub theta (smul alpha dtheta)
  (theta1, x1)

/-- The notebook's `gradient_descent(theta, x, y, max_iter, alpha, beta)`:
`max_iter` iterations of the loop body, returning `(theta, x)`. -/
def gradient_descent (theta x : Mat) (y : FMat) (max_iter : ℕ)
    (alpha beta : ℚ) : Mat × Mat :=
  match max_iter with
  | 0 => (theta, x)
  | Nat.succ n =>
    let p := step theta x y alpha beta
    gradient_descent p.1 p.2 y n alpha beta

/-- The notebook's `cost(theta, x, y) = 0.5 * (tmp ** 2).sum()` on the
masked residual. -/
def cost (theta x : Mat) (y : FMat) : ℚ :=
  let tmp := maskedResid theta x y
  (1 / 2) *
    ∑ i ∈ Finset.range tmp.rows, ∑ j ∈ Finset.range tmp.cols, tmp.entr i j ^ 2

theorem gradient_descent_zero (theta x : Mat) (y : FMat) (alpha beta : ℚ) :
    gradient_descent theta x y 0 alpha beta = (theta, x) := rfl

theorem gradient_descent_succ (theta x : Mat) (y : FMat) (n : ℕ)
    (alpha beta : ℚ) :
    gradient_descent theta x y (n + 1) alpha beta =
      gradient_descent (step theta x y alpha beta).1
        (step theta x y alpha beta).2 y n alpha beta := rfl

theorem msub_smul_zero (a b : Mat) : msub a (smul 0 b) = a := by
  ext i j
  · rfl
  · rfl
  · simp [msub, smul]

theorem step_zero_alpha (theta x : Mat) (y : FMat) :
    step theta x y 0 0 = (theta, x) := by
  show (msub theta (smul 0 _), msub x (smul 0 _)) = (theta, x)
  rw [msub_smul_zero, msub_smul_zero]

/-- C5: for every `theta`, `x`, `y` and every iteration count, running
`gradient_descent` with `alpha = 0` and `beta = 0` returns `theta` and `x`
unchanged — the zero learning rate is a no-op (proved with no shape
hypothesis, so in particular for all compatible shapes). -/
theorem zero_alpha_noop (theta x : Mat) (y : FMat) (n : ℕ) :
    gradient_descent theta x y n 0 0 = (theta, x) := by
  induction n generalizing theta x with
  | zero => rfl
  | succ n ih =>
    rw [gradient_descent_succ, step_zero_alpha]
    exact ih theta x

/-- C7: running `gradient_descent` for `m` iterations and then, on the
returned pair, for `n` more iterations gives exactly the same `(theta, x)`
as a single run of `m + n` iterations, for every configuration — invoking
the optimizer one step at a time reproduces the multi-step trajectory. -/
theorem iterate_additive (theta x : Mat) (y : FMat) (alpha beta : ℚ)
    (m n : ℕ) :
    gradient_descent (gradient_descent theta x y m alpha beta).1
        (gradient_descent theta x y m alpha beta).2 y n alpha beta =
      gradient_descent theta x y (m + n) alpha beta := by
  induction m generalizing theta x with
  | zero => rw [Nat.zero_add]; rfl
  | succ m ih =>
    rw [gradient_descent_succ, ih, Nat.succ_add, gradient_descent_succ]

/-- C9: every run of `gradient_descent` returns a `theta` of exactly the
input `theta`'s shape and an `x` of exactly the input `x`'s shape, so the
invariant that `x` is items×k and `theta` is users×k with a shared second
dimension `k` is preserved by every optimizer step. -/
theorem shapes_preserved (theta x : Mat) (y : FMat) (n : ℕ)
    (alpha beta : ℚ) :
    (gradient_descent theta x y n alpha beta).1.rows = theta.rows ∧
      (gradient_descent theta x y n alpha beta).1.cols = theta.cols ∧
      (gradient_descent theta x y n alpha beta).2.rows = x.rows ∧
      (gradient_descent theta x y n alpha beta).2.cols = x.cols := by
  induction n generalizing theta x with
  | zero => exact ⟨rfl, rfl, rfl, rfl⟩
  | succ n ih =>
    rw [gradient_descent_succ]
    obtain ⟨h1, h2, h3, h4⟩ :=
      ih (step theta x y alpha beta).1 (step theta x y alpha beta).2
    exact ⟨h1.trans rfl, h2.trans rfl, h3.trans rfl, h4.trans rfl⟩

/-- The residual as the specification words it: `R = Θ·Xᵗ − Y` elementwise,
with every entry at a missing position of `Y` zeroed. -/
def residSpec (theta x : Mat) (y : FMat) : Mat :=
  { rows := theta.rows, cols := x.rows,
    entr := fun i j =>
      if (y.entr i j).isNone then 0
      else (matmul theta (transpose x)).entr i j - (y.entr i j).getD 0 }

/-- One optimizer step as the specification words it: `ΔX = Rᵗ·Θ + beta·X`
and `ΔΘ = R·X + beta·Θ` are both formed from the same pre-update `Θ` and
`X`, and the two updates `X ← X − alpha·ΔX`, `Θ ← Θ − alpha·ΔΘ` are
simultaneous. -/
def stepSpec (theta x : Mat) (y : FMat) (alpha beta : ℚ) : Mat × Mat :=
  let R := residSpec theta x y
  let dX := madd (matmul (transpose R) theta) (smul beta x)
  let dTheta := madd (matmul R x) (smul beta theta)
  (msub theta (smul alpha dTheta), msub x (smul alpha dX))

theorem residSpec_eq (theta x : Mat) (y : FMat) :
    residSpec theta x y = maskedResid theta x y := by
  ext i j
  · rfl
  · rfl
  · show (if (y.entr i j).isNone then 0
        else (matmul theta (transpose x)).entr i j - (y.entr i j).getD 0) = _
    cases h : y.entr i j <;> simp [maskedResid, h]

theorem stepSpec_eq (theta x : Mat) (y : FMat) (alpha beta : ℚ) :
    stepSpec theta x y alpha beta = step theta x y alpha beta := by
  show (msub theta (smul alpha (madd (matmul (residSpec theta x y) x) _)),
      msub x (smul alpha (madd (matmul (transpose (residSpec theta x y))
        theta) _))) = _
  rw [residSpec_eq]
  rfl

/-- C1: each iteration of `gradient_descent` performs exactly the step the
specification describes — it computes the residual `R = Θ·Xᵗ − Y`, zeroes
`R` at the missing positions of `Y`, forms `ΔX = Rᵗ·Θ + beta·X` and
`ΔΘ = R·X + beta·Θ` from the same pre-update `Θ` and `X`, and updates both
matrices simultaneously (`stepSpec` is written from the specification;
`gradient_descent`, whose loop body updates `x` before `theta` but computes
`dtheta` first, agrees with it on every step). -/
theorem gradient_descent_step_eq_spec (theta x : Mat) (y : FMat)
    (alpha beta : ℚ) (n : ℕ) :
    gradient_descent theta x y (n + 1) alpha beta =
      gradient_descent (stepSpec theta x y alpha beta).1
        (stepSpec theta x y alpha beta).2 y n alpha beta := by
  rw [gradient_descent_succ, stepSpec_eq]

/-- The cost as the specification words it: `0.5 * sum(R .^ 2)` over all
entries of the masked residual.  Note that it takes no regularization
weight at all. -/
def costSpec (theta x : Mat) (y : FMat) : ℚ :=
  (1 / 2) *
    ∑ i ∈ Finset.range (residSpec theta x y).rows,
      ∑ j ∈ Finset.range (residSpec theta x y).cols,
        (residSpec theta x y).entr i j ^ 2

/-- C4: for every `theta`, `x`, `y`, `cost` returns exactly half the sum of
squares of the residual `Θ·Xᵗ − Y` with missing positions of `Y` zeroed
(`costSpec`, written from the specification and taking no `beta`, so no
regularization penalty appears in it), and the returned scalar is
non-negative. -/
theorem cost_eq_spec_nonneg (theta x : Mat) (y : FMat) :
    cost theta x y = costSpec theta x y ∧ 0 ≤ cost theta x y := by
  constructor
  · rw [cost, costSpec, residSpec_eq]
  · rw [cost]
    have h : ∀ i ∈ Finset.range (maskedResid theta x y).rows,
        0 ≤ ∑ j ∈ Finset.range (maskedResid theta x y).cols,
          (maskedResid theta x y).entr i j ^ 2 := by
      intro i _
      exact Finset.sum_nonneg fun j _ => sq_nonneg _
    have h2 := Finset.sum_nonneg h
    positivity

/-- Modelled from the spec: the error taxonomy of section 7 — the notebook
itself performs no input validation, only its contract in the spec names
these errors. -/
inductive GDError where
  | ShapeMismatch
  | InvalidConfig
deriving DecidableEq

/-- Modelled from the spec: the shape compatibility condition
`Θ.columns = X.columns`, `Θ.rows = Y.rows`, `X.rows = Y.columns`. -/
def shapesOk (theta x : Mat) (y : FMat) : Bool :=
  theta.cols == x.cols && theta.rows == y.rows && x.rows == y.cols

/-- Modelled from the spec: `CostEvaluator` — the notebook's `cost` guarded
by the shape check the spec's contract requires (the check comes before any
arithmetic; the notebook itself contains no such check). -/
def CostEvaluator (theta x : Mat) (y : FMat) : Except GDError ℚ :=
  if shapesOk theta x y then .ok (cost theta x y)
  else .error .ShapeMismatch

/-- Modelled from the spec: `GradientDescentOptimizer` — the notebook's
`gradient_descent` guarded first by the shape check and then by the
configuration check (`alpha ≤ 0`, `beta < 0` or `max_iter < 0` is
`InvalidConfig`); on an error no updated pair is produced, so `X` and `Θ`
are untouched. -/
def GradientDescentOptimizer (theta x : Mat) (y : FMat) (max_iter : ℤ)
    (alpha beta : ℚ) : Except GDError (Mat × Mat) :=
  if ¬shapesOk theta x y then .error .ShapeMismatch
  else if alpha ≤ 0 ∨ beta < 0 ∨ max_iter < 0 then .error .InvalidConfig
  else .ok (gradient_descent theta x y max_iter.toNat alpha beta)

/-- C2: whenever `Θ.columns ≠ X.columns`, or `Θ.rows ≠ Y.rows`, or
`X.rows ≠ Y.columns`, both `CostEvaluator` and `GradientDescentOptimizer`
return the `ShapeMismatch` error (and hence no updated matrices: nothing is
mutated and no arithmetic result is produced). -/
theorem shape_mismatch_fails (theta x : Mat) (y : FMat) (max_iter : ℤ)
    (alpha beta : ℚ)
    (h : theta.cols ≠ x.cols ∨ theta.rows ≠ y.rows ∨ x.rows ≠ y.cols) :
    CostEvaluator theta x y = .error .ShapeMismatch ∧
      GradientDescentOptimizer theta x y max_iter alpha beta =
        .error .ShapeMismatch := by
  have hs : shapesOk theta x y = false := by
    rw [shapesOk]
    rcases h with h | h | h <;> simp [h]
  constructor
  · rw [CostEvaluator, hs]
    rfl
  · rw [GradientDescentOptimizer, hs]
    rfl

/-- C2 witness: the spec's own example — a 3×2 `Θ` against a 4×3 `X`
(feature dimensions 2 and 3 differ) with a 3×4 `Y`. -/
theorem shape_mismatch_fails_witness :
    CostEvaluator (Mat.mk 3 2 fun _ _ => 1) (Mat.mk 4 3 fun _ _ => 1)
        (FMat.mk 3 4 fun _ _ => some 1) = .error .ShapeMismatch ∧
      GradientDescentOptimizer (Mat.mk 3 2 fun _ _ => 1)
          (Mat.mk 4 3 fun _ _ => 1) (FMat.mk 3 4 fun _ _ => some 1)
          5 1 0 = .error .ShapeMismatch :=
  shape_mismatch_fails _ _ _ 5 1 0 (Or.inl (by decide))

/-- C3: on shape-compatible inputs, any configuration with `alpha ≤ 0`, or
`beta < 0`, or `max_iter < 0` makes `GradientDescentOptimizer` return the
`InvalidConfig` error (and hence no updated matrices: `X` and `Θ` are
untouched). -/
theorem invalid_config_fails (theta x : Mat) (y : FMat) (max_iter : ℤ)
    (alpha beta : ℚ) (hs : shapesOk theta x y = true)
    (h : alpha ≤ 0 ∨ beta < 0 ∨ max_iter < 0) :
    GradientDescentOptimizer theta x y max_iter alpha beta =
      .error .InvalidConfig := by
  rw [GradientDescentOptimizer, hs]
  simp [h]

/-- C3 witness: the spec's example configuration `alpha = -0.1` on a tiny
compatible triple. -/
theorem invalid_config_fails_witness :
    GradientDescentOptimizer (Mat.mk 1 1 fun _ _ => 1)
        (Mat.mk 1 1 fun _ _ => 1) (FMat.mk 1 1 fun _ _ => some 1)
        1000 (-(1 / 10)) 0 = .error .InvalidConfig :=
  invalid_config_fails _ _ _ 1000 (-(1 / 10)) 0 (by decide)
    (Or.inl (by norm_num))

/-- The mutable program state of the notebook: the two factor arrays the
optimizer assigns in place, and the rating array it only reads. -/
structure PState where
  theta : Mat
  x : Mat
  y : FMat

/-- The loop body of `gradient_descent` as a state transformer, one field
assignment per notebook statement: `tmp`, `dx`, `dtheta` are locals, then
`x -= alpha * dx` produces `s1`, then `theta -= alpha * dtheta` produces
`s2`.  The `y` field is never assigned. -/
def gdBody (s : PState) (alpha beta : ℚ) : PState :=
  let tmp := maskedResid s.theta s.x s.y
  let dx := madd (matmul (transpose tmp) s.theta) (smul beta s.x)
  let dtheta := madd (matmul tmp s.x) (smul beta s.theta)
  let s1 := { s with x := msub s.x (smul alpha dx) }
  let s2 := { s1 with theta := msub s1.theta (smul alpha dtheta) }
  s2

/-- Runs `max_iter` executions of the loop body on the program state. -/
def gdRun (s : PState) (n : ℕ) (alpha beta : ℚ) : PState :=
  match n with
  | 0 => s
  | Nat.succ m => gdRun (gdBody s alpha beta) m alpha beta

/-- The body of `cost` as a state transformer: it binds only the local
`tmp` and returns a scalar, assigning no field of the state. -/
def costRun (s : PState) : ℚ × PState :=
  let tmp := maskedResid s.theta s.x s.y
  ((1 / 2) *
      ∑ i ∈ Finset.range tmp.rows,
        ∑ j ∈ Finset.range tmp.cols, tmp.entr i j ^ 2,
    s)

theorem gdBody_eq_step (s : PState) (alpha beta : ℚ) :
    gdBody s alpha beta =
      ⟨(step s.theta s.x s.y alpha beta).1,
        (step s.theta s.x s.y alpha beta).2, s.y⟩ := rfl

/-- C8: running the optimizer on the program state never changes the rating
matrix `y` (only the `theta` and `x` fields are assigned, and they follow
the pure `gradient_descent`), and evaluating the cost changes no field of
the state at all — its value is the pure function `cost` of the three
inputs. -/
theorem frame_y_preserved (s : PState) (n : ℕ) (alpha beta : ℚ) :
    (gdRun s n alpha beta).y = s.y ∧
      (gdRun s n alpha beta).theta =
        (gradient_descent s.theta s.x s.y n alpha beta).1 ∧
      (gdRun s n alpha beta).x =
        (gradient_descent s.theta s.x s.y n alpha beta).2 ∧
      (costRun s).2 = s ∧
      (costRun s).1 = cost s.theta s.x s.y := by
  refine ⟨?_, ?_, ?_, rfl, rfl⟩
  · induction n generalizing s with
    | zero => rfl
    | succ m ih => exact (ih (gdBody s alpha beta)).trans rfl
  · induction n generalizing s with
    | zero => rfl
    | succ m ih =>
      rw [gradient_descent_succ]
      exact ih ⟨(step s.theta s.x s.y alpha beta).1,
        (step s.theta s.x s.y alpha beta).2, s.y⟩
  · induction n generalizing s with
    | zero => rfl
    | succ m ih =>
      rw [gradient_descent_succ]
      exact ih ⟨(step s.theta s.x s.y alpha beta).1,
        (step s.theta s.x s.y alpha beta).2, s.y⟩

theorem maskedResid_entr (theta x : Mat) (y : FMat) (i j : ℕ) :
    (maskedResid theta x y).entr i j =
      match y.entr i j with
      | none => 0
      | some v => (matmul theta (transpose x)).entr i j - v := rfl

theorem matmul_transpose_row_congr (theta theta' x : Mat) (l : ℕ)
    (hdc : theta'.cols = theta.cols)
    (hrowe : ∀ c, theta'.entr l c = theta.entr l c) (i : ℕ) :
    (matmul theta' (transpose x)).entr l i =
      (matmul theta (transpose x)).entr l i := by
  show (∑ c ∈ Finset.range theta'.cols, theta'.entr l c * x.entr i c) =
    ∑ c ∈ Finset.range theta.cols, theta.entr l c * x.entr i c
  rw [hdc]
  exact Finset.sum_congr rfl fun c _ => by rw [hrowe c]

theorem maskedResid_row_congr (theta theta' x : Mat) (y : FMat) (l : ℕ)
    (hdc : theta'.cols = theta.cols)
    (hrowe : ∀ c, theta'.entr l c = theta.entr l c) (i : ℕ) :
    (maskedResid theta' x y).entr l i = (maskedResid theta x y).entr l i := by
  rw [maskedResid_entr, maskedResid_entr]
  cases h : y.entr l i with
  | none => rfl
  | some v => rw [matmul_transpose_row_congr theta theta' x l hdc hrowe i]

/-- C6: with `beta = 0` and a user row `r` of `Y` entirely missing, a single
optimizer step leaves row `r` of `Θ` unchanged, row `r` contributes zero to
the sum of squares in the cost, and replacing row `r` of `Θ` by anything
else changes neither the update of `X` (on its meaningful rows) nor the
update of any other row of `Θ`. -/
theorem missing_row_no_influence (theta theta' x : Mat) (y : FMat) (r : ℕ)
    (alpha : ℚ) (_hk : theta.cols = x.cols) (_hu : theta.rows = y.rows)
    (hi : x.rows = y.cols)
    (hrow : ∀ j, j < y.cols → y.entr r j = none)
    (hdr : theta'.rows = theta.rows) (hdc : theta'.cols = theta.cols)
    (hagree : ∀ i j, i ≠ r → theta'.entr i j = theta.entr i j) :
    (∀ j, ((step theta x y alpha 0).1).entr r j = theta.entr r j) ∧
      (∑ j ∈ Finset.range (maskedResid theta x y).cols,
          (maskedResid theta x y).entr r j ^ 2 = 0) ∧
      (∀ i j, i < x.rows →
        ((step theta' x y alpha 0).2).entr i j =
          ((step theta x y alpha 0).2).entr i j) ∧
      (∀ i j, i ≠ r →
        ((step theta' x y alpha 0).1).entr i j =
          ((step theta x y alpha 0).1).entr i j) := by
  have hmask0 : ∀ l, l < y.cols → (maskedResid theta x y).entr r l = 0 := by
    intro l hl
    rw [maskedResid_entr, hrow l hl]
  have hmask0' : ∀ l, l < y.cols → (maskedResid theta' x y).entr r l = 0 := by
    intro l hl
    rw [maskedResid_entr, hrow l hl]
  refine ⟨?_, ?_, ?_, ?_⟩
  · -- row r of theta is unchanged by the step
    intro j
    show theta.entr r j - alpha *
        ((∑ l ∈ Finset.range x.rows,
            (maskedResid theta x y).entr r l * x.entr l j) +
          0 * theta.entr r j) = theta.entr r j
    rw [Finset.sum_eq_zero fun l hl => by
      rw [hmask0 l (hi ▸ Finset.mem_range.mp hl), zero_mul]]
    ring
  · -- row r contributes zero to the cost's sum of squares
    apply Finset.sum_eq_zero
    intro j hj
    have hj' : j < x.rows := Finset.mem_range.mp hj
    rw [hmask0 j (hi ▸ hj')]
    norm_num
  · -- the update of X does not depend on row r of theta
    intro i j hix
    show x.entr i j - alpha *
        ((∑ l ∈ Finset.range theta'.rows,
            (maskedResid theta' x y).entr l i * theta'.entr l j) +
          0 * x.entr i j) =
      x.entr i j - alpha *
        ((∑ l ∈ Finset.range theta.rows,
            (maskedResid theta x y).entr l i * theta.entr l j) +
          0 * x.entr i j)
    have hsum : (∑ l ∈ Finset.range theta'.rows,
        (maskedResid theta' x y).entr l i * theta'.entr l j) =
        ∑ l ∈ Finset.range theta.rows,
          (maskedResid theta x y).entr l i * theta.entr l j := by
      rw [hdr]
      apply Finset.sum_congr rfl
      intro l _
      by_cases hlr : l = r
      · subst hlr
        rw [hmask0 i (hi ▸ hix), hmask0' i (hi ▸ hix), zero_mul, zero_mul]
      · rw [maskedResid_row_congr theta theta' x y l hdc
          (fun c => hagree l c hlr) i, hagree l j hlr]
    rw [hsum]
  · -- the update of any other row of theta does not depend on row r
    intro i j hir
    show theta'.entr i j - alpha *
        ((∑ l ∈ Finset.range x.rows,
            (maskedResid theta' x y).entr i l * x.entr l j) +
          0 * theta'.entr i j) =
      theta.entr i j - alpha *
        ((∑ l ∈ Finset.range x.rows,
            (maskedResid theta x y).entr i l * x.entr l j) +
          0 * theta.entr i j)
    have hsum : (∑ l ∈ Finset.range x.rows,
        (maskedResid theta' x y).entr i l * x.entr l j) =
        ∑ l ∈ Finset.range x.rows,
          (maskedResid theta x y).entr i l * x.entr l j := by
      apply Finset.sum_congr rfl
      intro l _
      rw [maskedResid_row_congr theta theta' x y i hdc
        (fun c => hagree i c hir) l]
    rw [hsum, hagree i j hir]

def wTheta : Mat := ⟨2, 1, fun i _ => if i = 1 then 2 else 1⟩

def wThetaAlt : Mat := ⟨2, 1, fun i _ => if i = 1 then 7 else 1⟩

def wX : Mat := ⟨3, 1, fun _ _ => 1⟩

def wY : FMat := ⟨2, 3, fun i _ => if i = 1 then none else some 1⟩

/-- C6 witness: a 2-user, 3-item instance whose user row 1 of the rating
matrix is entirely missing, with two parameter matrices differing exactly
in that row. -/
theorem missing_row_no_influence_witness :
    (∀ j, ((step wTheta wX wY (1 / 2) 0).1).entr 1 j = wTheta.entr 1 j) ∧
      (∑ j ∈ Finset.range (maskedResid wTheta wX wY).cols,
          (maskedResid wTheta wX wY).entr 1 j ^ 2 = 0) ∧
      (∀ i j, i < wX.rows →
        ((step wThetaAlt wX wY (1 / 2) 0).2).entr i j =
          ((step wTheta wX wY (1 / 2) 0).2).entr i j) ∧
      (∀ i j, i ≠ 1 →
        ((step wThetaAlt wX wY (1 / 2) 0).1).entr i j =
          ((step wTheta wX wY (1 / 2) 0).1).entr i j) :=
  missing_row_no_influence wTheta wThetaAlt wX wY 1 (1 / 2) rfl rfl rfl
    (by decide) rfl rfl
    (fun i j h => by simp [wTheta, wThetaAlt, h])

/-- Sentinel-propagating addition: any operand that is the not-a-number
sentinel (`none`) makes the result the sentinel, as IEEE addition does. -/
def fadd : Option ℚ → Option ℚ → Option ℚ
  | some a, some b => some (a + b)
  | _, _ => none

/-- Sentinel-propagating multiplication. -/
def fmul : Option ℚ → Option ℚ → Option ℚ
  | some a, some b => some (a * b)
  | _, _ => none

/-- Sentinel-propagating subtraction. -/
def fsub : Option ℚ → Option ℚ → Option ℚ
  | some a, some b => some (a - b)
  | _, _ => none

/-- Left-to-right sum `fsumRange n f = f 0 + f 1 + ... + f (n-1)` with
sentinel-propagating addition. -/
def fsumRange : ℕ → (ℕ → Option ℚ) → Option ℚ
  | 0, _ => some 0
  | Nat.succ n, f => fadd (fsumRange n f) (f n)

/-- Matrix product `a @ b` in the sentinel-propagating model. -/
def fmatmul (a b : FMat) : FMat :=
  { rows := a.rows, cols := b.cols,
    entr := fun i j => fsumRange a.cols fun l => fmul (a.entr i l) (b.entr l j) }

/-- Transpose `a.T` in the sentinel-propagating model. -/
def ftranspose (a : FMat) : FMat :=
  { rows := a.cols, cols := a.rows, entr := fun i j => a.entr j i }

/-- Elementwise `a + b` in the sentinel-propagating model. -/
def faddM (a b : FMat) : FMat :=
  { rows := a.rows, cols := a.cols,
    entr := fun i j => fadd (a.entr i j) (b.entr i j) }

/-- Elementwise `a - b` in the sentinel-propagating model. -/
def fsubM (a b : FMat) : FMat :=
  { rows := a.rows, cols := a.cols,
    entr := fun i j => fsub (a.entr i j) (b.entr i j) }

/-- Scalar product `c * a` in the sentinel-propagating model (`c` is a
finite scalar). -/
def fsmulM (c : ℚ) (a : FMat) : FMat :=
  { rows := a.rows, cols := a.cols,
    entr := fun i j => fmul (some c) (a.entr i j) }

/-- The mask `tmp[np.isnan(tmp)] = 0`, literally: every entry whose
computed value is the sentinel is replaced by zero; the test is on the
computed entry, not on `y`. -/
def fmask (t : FMat) : FMat :=
  { rows := t.rows, cols := t.cols,
    entr := fun i j =>
      match t.entr i j with
      | none => some 0
      | some v => some v }

/-- The two masking lines shared by `gradient_descent` and `cost`:
`tmp = theta @ x.T - y; tmp[np.isnan(tmp)] = 0`. -/
def ftmp (theta x y : FMat) : FMat :=
  fmask (fsubM (fmatmul theta (ftranspose x)) y)

/-- One loop iteration of `gradient_descent` in the sentinel-propagating
model. -/
def fstep (theta x y : FMat) (alpha beta : ℚ) : FMat × FMat :=
  let tmp := ftmp theta x y
  let dx := faddM (fmatmul (ftranspose tmp) theta) (fsmulM beta x)
  let dtheta := faddM (fmatmul tmp x) (fsmulM beta theta)
  let x1 := fsubM x (fsmulM alpha dx)
  let theta1 := fsubM theta (fsmulM alpha dtheta)
  (theta1, x1)

/-- The notebook's `gradient_descent` in the sentinel-propagating model. -/
def fgradient_descent (theta x y : FMat) (max_iter : ℕ)
    (alpha beta : ℚ) : FMat × FMat :=
  match max_iter with
  | 0 => (theta, x)
  | Nat.succ n =>
    let p := fstep theta x y alpha beta
    fgradient_descent p.1 p.2 y n alpha beta

/-- The notebook's `cost` in the sentinel-propagating model. -/
def fcost (theta x y : FMat) : Option ℚ :=
  let tmp := ftmp theta x y
  fmul (some (1 / 2))
    (fsumRange tmp.rows fun i =>
      fsumRange tmp.cols fun j => fmul (tmp.entr i j) (tmp.entr i j))

/-- A sentinel-free matrix: every entry of `m` wrapped in `some`. -/
def toF (m : Mat) : FMat :=
  { rows := m.rows, cols := m.cols, entr := fun i j => some (m.entr i j) }

theorem fsumRange_some (n : ℕ) (f : ℕ → ℚ) :
    fsumRange n (fun l => some (f l)) =
      some (∑ l ∈ Finset.range n, f l) := by
  induction n with
  | zero => rfl
  | succ n ih => rw [fsumRange, ih, Finset.sum_range_succ]; rfl

theorem fmatmul_toF (a b : Mat) :
    fmatmul (toF a) (toF b) = toF (matmul a b) := by
  refine FMat.ext rfl rfl ?_
  funext i j
  show fsumRange a.cols (fun l => fmul (some (a.entr i l))
      (some (b.entr l j))) = _
  have h : (fun l => fmul (some (a.entr i l)) (some (b.entr l j))) =
      fun l => some (a.entr i l * b.entr l j) := rfl
  rw [h, fsumRange_some]
  rfl

theorem ftmp_toF (theta x : Mat) (y : FMat) :
    ftmp (toF theta) (toF x) y = toF (maskedResid theta x y) := by
  have hmm : fmatmul (toF theta) (ftranspose (toF x)) =
      toF (matmul theta (transpose x)) := fmatmul_toF theta (transpose x)
  refine FMat.ext rfl rfl ?_
  funext i j
  show (fmask (fsubM (fmatmul (toF theta) (ftranspose (toF x))) y)).entr
      i j = _
  rw [hmm]
  show (match fsub (some ((matmul theta (transpose x)).entr i j))
        (y.entr i j) with
      | none => some 0
      | some v => some v) = some ((maskedResid theta x y).entr i j)
  rw [maskedResid_entr]
  cases y.entr i j <;> rfl

theorem fstep_toF (theta x : Mat) (y : FMat) (alpha beta : ℚ) :
    fstep (toF theta) (toF x) y alpha beta =
      ((toF (step theta x y alpha beta).1),
        (toF (step theta x y alpha beta).2)) := by
  have h1 : faddM (fmatmul (ftranspose (ftmp (toF theta) (toF x) y))
      (toF theta)) (fsmulM beta (toF x)) =
      toF (madd (matmul (transpose (maskedResid theta x y)) theta)
        (smul beta x)) := by
    rw [ftmp_toF]
    have h := fmatmul_toF (transpose (maskedResid theta x y)) theta
    rw [show ftranspose (toF (maskedResid theta x y)) =
      toF (transpose (maskedResid theta x y)) from rfl, h]
    rfl
  have h2 : faddM (fmatmul (ftmp (toF theta) (toF x) y) (toF x))
      (fsmulM beta (toF theta)) =
      toF (madd (matmul (maskedResid theta x y) x) (smul beta theta)) := by
    rw [ftmp_toF, fmatmul_toF]
    rfl
  show (fsubM (toF theta) (fsmulM alpha (faddM
        (fmatmul (ftmp (toF theta) (toF x) y) (toF x))
        (fsmulM beta (toF theta)))),
      fsubM (toF x) (fsmulM alpha (faddM
        (fmatmul (ftranspose (ftmp (toF theta) (toF x) y)) (toF theta))
        (fsmulM beta (toF x))))) = _
  rw [h1, h2]
  rfl

/-- On sentinel-free factor matrices the sentinel-propagating model and the
rational model compute the same optimizer trajectory. -/
theorem fgd_toF (theta x : Mat) (y : FMat) (n : ℕ) (alpha beta : ℚ) :
    fgradient_descent (toF theta) (toF x) y n alpha beta =
      ((toF (gradient_descent theta x y n alpha beta).1),
        (toF (gradient_descent theta x y n alpha beta).2)) := by
  induction n generalizing theta x with
  | zero => rfl
  | succ n ih =>
    show fgradient_descent (fstep (toF theta) (toF x) y alpha beta).1
        (fstep (toF theta) (toF x) y alpha beta).2 y n alpha beta = _
    rw [fstep_toF, gradient_descent_succ]
    exact ih (step theta x y alpha beta).1 (step theta x y alpha beta).2

/-- On sentinel-free factor matrices the sentinel-propagating model and the
rational model compute the same cost. -/
theorem fcost_toF (theta x : Mat) (y : FMat) :
    fcost (toF theta) (toF x) y = some (cost theta x y) := by
  rw [fcost, ftmp_toF]
  have hrow : ∀ i, (fsumRange (maskedResid theta x y).cols fun j =>
      fmul ((toF (maskedResid theta x y)).entr i j)
        ((toF (maskedResid theta x y)).entr i j)) =
      some (∑ j ∈ Finset.range (maskedResid theta x y).cols,
        (maskedResid theta x y).entr i j ^ 2) := by
    intro i
    have h : (fun j => fmul ((toF (maskedResid theta x y)).entr i j)
        ((toF (maskedResid theta x y)).entr i j)) =
        fun j => some ((maskedResid theta x y).entr i j ^ 2) := by
      funext j
      show some ((maskedResid theta x y).entr i j *
        (maskedResid theta x y).entr i j) = _
      rw [← pow_two]
    rw [h, fsumRange_some]
  have h2 : (fun i => fsumRange (toF (maskedResid theta x y)).cols fun j =>
      fmul ((toF (maskedResid theta x y)).entr i j)
        ((toF (maskedResid theta x y)).entr i j)) =
      fun i => some (∑ j ∈ Finset.range (maskedResid theta x y).cols,
        (maskedResid theta x y).entr i j ^ 2) := by
    funext i
    exact hrow i
  show fmul (some (1 / 2)) (fsumRange (maskedResid theta x y).rows
      fun i => fsumRange (toF (maskedResid theta x y)).cols fun j =>
        fmul ((toF (maskedResid theta x y)).entr i j)
          ((toF (maskedResid theta x y)).entr i j)) = _
  rw [h2, fsumRange_some]
  rfl

/-- C10: the mask of the notebook zeroes exactly the entries of the
computed residual `theta @ x.T - y` that are the not-a-number sentinel
(`ftmp` is the `tmp` both `fgradient_descent` and `fcost` compute).  First
conjunct: at any position where the reconstruction `theta @ x.T` is not the
sentinel, this coincides with zeroing at the missing positions of `y` and
keeping the honest difference elsewhere.  Second conjunct: at a position
where the reconstruction itself is the sentinel, the entry is zeroed even
if the rating is observed — the rating is silently treated as missing. -/
theorem mask_tests_residual_nan (theta x y : FMat) (i j : ℕ) :
    ((fmatmul theta (ftranspose x)).entr i j ≠ none →
      (ftmp theta x y).entr i j =
        (if (y.entr i j).isNone then some 0
         else fsub ((fmatmul theta (ftranspose x)).entr i j)
           (y.entr i j))) ∧
    ((fmatmul theta (ftranspose x)).entr i j = none →
      (ftmp theta x y).entr i j = some 0) := by
  constructor
  · intro h
    obtain ⟨v, hv⟩ := Option.ne_none_iff_exists'.mp h
    show (match fsub ((fmatmul theta (ftranspose x)).entr i j)
          (y.entr i j) with
        | none => some 0
        | some w => some w) = _
    rw [hv]
    cases y.entr i j <;> rfl
  · intro h
    show (match fsub ((fmatmul theta (ftranspose x)).entr i j)
          (y.entr i j) with
        | none => some 0
        | some w => some w) = some 0
    rw [h]
    cases y.entr i j <;> rfl

/-- C10 witness: a 1×1 instance whose parameter entry is already the
sentinel, so the reconstruction is the sentinel at an observed rating
(`some 3`), and the masked residual there is zero; and a sentinel-free 1×1
instance where the mask keeps the honest difference at the observed
rating. -/
theorem mask_tests_residual_nan_witness :
    (ftmp (FMat.mk 1 1 fun _ _ => none) (FMat.mk 1 1 fun _ _ => some 1)
        (FMat.mk 1 1 fun _ _ => some 3)).entr 0 0 = some 0 ∧
      (ftmp (FMat.mk 1 1 fun _ _ => some 2) (FMat.mk 1 1 fun _ _ => some 1)
          (FMat.mk 1 1 fun _ _ => some 3)).entr 0 0 =
        (if ((FMat.mk 1 1 fun _ _ => (some 3 : Option ℚ)).entr 0 0).isNone
         then some 0
         else fsub ((fmatmul (FMat.mk 1 1 fun _ _ => some 2)
             (ftranspose (FMat.mk 1 1 fun _ _ => some 1))).entr 0 0)
           ((FMat.mk 1 1 fun _ _ => some 3).entr 0 0)) :=
  ⟨(mask_tests_residual_nan (FMat.mk 1 1 fun _ _ => none)
      (FMat.mk 1 1 fun _ _ => some 1) (FMat.mk 1 1 fun _ _ => some 3)
      0 0).2 (by decide),
    (mask_tests_residual_nan (FMat.mk 1 1 fun _ _ => some 2)
      (FMat.mk 1 1 fun _ _ => some 1) (FMat.mk 1 1 fun _ _ => some 3)
      0 0).1 (by decide)⟩

end RecSys
